import Mathlib

/-
Verification of the image-collection pipeline in collect/collect.py.

The Python script is embedded shallowly:
* JSON values produced by json.loads are modelled by the inductive type Json
  (Python None is Json.null; parsed objects have unique keys).
* Network and Pillow library calls are modelled by an explicit environment
  record Env: each call is a function returning Option, where none models the
  library call raising its documented exception (URLError, HTTPError,
  JSONDecodeError, or a PIL decode or encode error).
* The filesystem slice touched by the program (the output directory) is an
  association list Store from file names to abstract byte contents.
* Uncaught Python exceptions (which terminate the interpreter with a nonzero
  status) are modelled by Except.error Uncaught; a completed run of main,
  which returns 0, is Except.ok.
-/

namespace Collect

/-- JSON values as produced by json.loads.  Numbers are modelled as integers
(no claim depends on numeric values). -/
inductive Json where
  | null : Json
  | bool : Bool → Json
  | num : Int → Json
  | str : String → Json
  | arr : List Json → Json
  | obj : List (String × Json) → Json

/-- Python truthiness of a JSON value: None, False, 0, empty string, empty
list and empty dict are falsy, everything else truthy. -/
def Json.truthy : Json → Bool
  | Json.null => false
  | Json.bool b => b
  | Json.num n => n != 0
  | Json.str s => s != ""
  | Json.arr xs => !xs.isEmpty
  | Json.obj fs => !fs.isEmpty

/-- dict lookup with default None: models item.get(key).  Parsed JSON objects
have unique keys, so first-match lookup agrees with Python dicts. -/
def lookupKey : List (String × Json) → String → Json
  | [], _ => Json.null
  | (k, v) :: rest, key => if k = key then v else lookupKey rest key

/-- The double-quote character, written via its code point to keep string
literals of the vqd patterns readable. -/
def dq : Char := Char.ofNat 34

/-- The single-quote character. -/
def sq : Char := Char.ofNat 39

/-- Attempt to match the regular expression vqd=q([^q]+)q (with q the given
quote character) at the head of the character list, returning the captured
group.  The greedy one-or-more group captures exactly the run of non-quote
characters up to the first closing quote; if that run is empty or no closing
quote follows, there is no match at this position. -/
def matchVqdAt (q : Char) : List Char → Option (List Char)
  | 'v' :: 'q' :: 'd' :: '=' :: c :: rest =>
    if c = q then
      let tok := rest.takeWhile (fun x => x ≠ q)
      if tok.isEmpty then none
      else if tok.length < rest.length then some tok else none
    else none
  | _ => none

/-- re.search for the vqd pattern: try to match at each position from the
left, returning the leftmost match. -/
def searchVqd (q : Char) : List Char → Option (List Char)
  | [] => none
  | c :: rest =>
    match matchVqdAt q (c :: rest) with
    | some tok => some tok
    | none => searchVqd q rest

/-- Token extraction of fetch_vqd: first the double-quoted pattern, and only
if it has no match anywhere in the body, the single-quoted pattern.  A none
result models fetch_vqd raising RuntimeError. -/
def extractVqd (body : List Char) : Option (List Char) :=
  match searchVqd dq body with
  | some tok => some tok
  | none => searchVqd sq body

/-- Python exceptions that no handler in main catches: URLError or HTTPError
raised by the handshake http_get, by the search http_get, and AttributeError
or TypeError from applying .get to or iterating a JSON value of the wrong
shape.  Any of these terminates the process. -/
inductive Uncaught where
  | netHandshake : Uncaught
  | netSearch : Uncaught
  | pyError : Uncaught
deriving DecidableEq

/-- Exceptions main catches around search_image_candidates: RuntimeError from
fetch_vqd, and json.JSONDecodeError from json.loads. -/
inductive Caught where
  | tokenNotFound : Caught
  | malformedJson : Caught
deriving DecidableEq

/-- Outcome of search_image_candidates as seen by main. -/
inductive SearchErr where
  | uncaught : Uncaught → SearchErr
  | caught : Caught → SearchErr

/-- Candidate URLs contributed by one result entry: the value of the image
key if truthy, then the value of the thumbnail key if truthy.  A non-dict
entry raises AttributeError on .get (uncaught). -/
def itemCandidates : Json → Except Uncaught (List Json)
  | Json.obj fields =>
    let im := lookupKey fields "image"
    let th := lookupKey fields "thumbnail"
    Except.ok ((if im.truthy then [im] else []) ++ (if th.truthy then [th] else []))
  | _ => Except.error Uncaught.pyError

/-- The candidate-collection loop over the result entries, in order,
image before thumbnail within an entry. -/
def collectCandidates : List Json → Except Uncaught (List Json)
  | [] => Except.ok []
  | item :: rest =>
    match itemCandidates item with
    | Except.error u => Except.error u
    | Except.ok cs =>
      match collectCandidates rest with
      | Except.error u => Except.error u
      | Except.ok rs => Except.ok (cs ++ rs)

/-- data.get("results") or []: a falsy value (absent key, null, empty array,
and so on) yields the empty list; a truthy array yields its elements; any
other truthy value makes the subsequent for-loop raise an uncaught
AttributeError or TypeError, and a non-dict data raises on .get. -/
def resultsOf : Json → Except Uncaught (List Json)
  | Json.obj fields =>
    match lookupKey fields "results" with
    | Json.arr xs => Except.ok xs
    | r => if r.truthy then Except.error Uncaught.pyError else Except.ok []
  | _ => Except.error Uncaught.pyError

/-- The pure JSON-processing part of search_image_candidates: extract the
results array and collect the candidate URLs. -/
def candidatesOfData (data : Json) : Except Uncaught (List Json) :=
  match resultsOf data with
  | Except.error u => Except.error u
  | Except.ok xs => collectCandidates xs

/-- The environment of library calls the script makes, with abstract byte
contents B and abstract decoded Pillow images Img.
* handshakeBody: http_get of the DuckDuckGo page for a query (none = URLError
  or HTTPError, which no handler catches on this call path).
* searchBody: http_get of the i.js endpoint for a query and vqd token
  (none = URLError or HTTPError, uncaught here as well).
* parseJson: json.loads of the payload (none = JSONDecodeError, caught).
* fetch: urlopen inside download_image (none = URLError or HTTPError, caught
  by the per-candidate handler; on none, the destination file has not been
  opened, so the filesystem is untouched).
* openImage: Image.open plus verify of a file's bytes (none = any exception).
* imgFormat: the format attribute of the opened image.
* convertRGB: img.convert RGB, stripping any alpha channel.
* saveJpeg: saving the image as JPEG at quality 95 (none = any exception).
* save: saving the image in the given format (none = any exception). -/
structure Env (B Img : Type) where
  handshakeBody : String → Option String
  searchBody : String → List Char → Option String
  parseJson : String → Option Json
  fetch : String → Option B
  openImage : B → Option Img
  imgFormat : Img → String
  convertRGB : Img → Img
  saveJpeg : Img → Option B
  save : Img → String → Option B

/-- Characters Python str.strip removes (ASCII whitespace; the rows in the
claims contain only ASCII). -/
def pySpace (c : Char) : Bool :=
  c = ' ' || c = '\t' || c = '\n' || c = '\r' || c = '\x0b' || c = '\x0c'

/-- Python str.strip: drop whitespace from both ends. -/
def pystrip (s : String) : String :=
  String.mk (((s.toList.dropWhile pySpace).reverse.dropWhile pySpace).reverse)

/-- The final path component (pathlib name), the part after the last slash. -/
def pathBasename (p : String) : String :=
  String.mk ((p.toList.reverse.takeWhile (fun c => c ≠ '/')).reverse)

/-- Index of the last dot in a character list, if any. -/
def lastDotIdx : List Char → Option Nat
  | [] => none
  | c :: rest =>
    match lastDotIdx rest with
    | some i => some (i + 1)
    | none => if c = '.' then some 0 else none

/-- pathlib Path.suffix: the substring of the name from its last dot, when
that dot is neither the first nor the last character; otherwise empty. -/
def pathSuffix (p : String) : String :=
  let nm := (pathBasename p).toList
  match lastDotIdx nm with
  | some i => if 0 < i ∧ i + 1 < nm.length then String.mk (nm.drop i) else ""
  | none => ""

/-- suffix.upper().replace(".", ""), then the JPG spelling mapped to JPEG:
the format a destination filename's extension implies. -/
def expectedFormat (p : String) : String :=
  let s := String.mk (((pathSuffix p).toList.map Char.toUpper).filter (fun c => c ≠ '.'))
  if s = "JPG" then "JPEG" else s

/-- validate_and_convert_image on a file with the given path and contents.
Returns the Python return value and the file contents afterwards.  Decode
failure returns invalid; matching formats return valid without touching the
file; a mismatch re-encodes in place (JPEG targets via an RGB conversion at
quality 95, others directly), any save exception returning invalid. -/
def validateAndConvert {B Img : Type} (env : Env B Img) (p : String) (content : B) :
    Bool × B :=
  match env.openImage content with
  | none => (false, content)
  | some img =>
    if env.imgFormat img = expectedFormat p then (true, content)
    else if expectedFormat p = "JPEG" then
      match env.saveJpeg (env.convertRGB img) with
      | some b => (true, b)
      | none => (false, content)
    else
      match env.save img (expectedFormat p) with
      | some b => (true, b)
      | none => (false, content)

/-- The output directory as a finite map from file names to byte contents. -/
abbrev Store (B : Type) := List (String × B)

/-- File lookup. -/
def Store.find {B : Type} : Store B → String → Option B
  | [], _ => none
  | (k, v) :: rest, key => if k = key then some v else Store.find rest key

/-- Writing a file (download_image or a validator re-encode). -/
def Store.insert {B : Type} (st : Store B) (key : String) (v : B) : Store B :=
  match st with
  | [] => [(key, v)]
  | (k, w) :: rest => if k = key then (k, v) :: rest else (k, w) :: Store.insert rest key v

/-- Deleting a file (dest_path.unlink with missing_ok). -/
def Store.erase {B : Type} (st : Store B) (key : String) : Store B :=
  st.filter (fun p => p.1 ≠ key)

/-- One network request made by the script. -/
inductive NetCall where
  | handshake : String → NetCall
  | searchQ : String → NetCall
  | fetchUrl : String → NetCall
deriving DecidableEq

/-- The image-download requests among a list of network calls. -/
def fetchesOf (tr : List NetCall) : List String :=
  tr.filterMap (fun c => match c with | NetCall.fetchUrl u => some u | _ => none)

/-- How main finishes one row (mirroring its log lines). -/
inductive RowOutcome where
  | skippedBlank : RowOutcome
  | skippedFilter : RowOutcome
  | skippedExisting : RowOutcome
  | searchFailed : Caught → RowOutcome
  | noCandidates : RowOutcome
  | downloaded : RowOutcome
  | allBlocked : RowOutcome
deriving DecidableEq

/-- The command-line configuration main reads (sleep does not affect any
modelled observable). -/
structure Config where
  overwrite : Bool
  fileFilter : Option String

/-- One CSV row: row.get("title", "") and row.get("imageFile", ""), so a
missing column is the empty string. -/
structure Row where
  title : String
  imageFile : String

/-- The stripped title of a row. -/
def rowTitle (row : Row) : String := pystrip row.title

/-- The stripped imageFile of a row. -/
def rowName (row : Row) : String := pystrip row.imageFile

/-- args.image_file and image_name != args.image_file: the single-file filter
applies only when set and truthy (nonempty). -/
def filterHit (cfg : Config) (name : String) : Prop :=
  match cfg.fileFilter with
  | some f => f ≠ "" ∧ name ≠ f
  | none => False

instance (cfg : Config) (name : String) : Decidable (filterHit cfg name) := by
  unfold filterHit
  match cfg.fileFilter with
  | some f => exact instDecidableAnd
  | none => exact instDecidableFalse

/-- search_image_candidates for a query: the handshake request, vqd
extraction, the search request and JSON processing, together with the trace
of network calls it makes. -/
def search_image_candidates {B Img : Type} (env : Env B Img) (query : String) :
    Except SearchErr (List Json) × List NetCall :=
  match env.handshakeBody query with
  | none => (Except.error (SearchErr.uncaught Uncaught.netHandshake), [NetCall.handshake query])
  | some body =>
    match extractVqd body.toList with
    | none => (Except.error (SearchErr.caught Caught.tokenNotFound), [NetCall.handshake query])
    | some vqd =>
      match env.searchBody query vqd with
      | none =>
        (Except.error (SearchErr.uncaught Uncaught.netSearch),
          [NetCall.handshake query, NetCall.searchQ query])
      | some payload =>
        match env.parseJson payload with
        | none =>
          (Except.error (SearchErr.caught Caught.malformedJson),
            [NetCall.handshake query, NetCall.searchQ query])
        | some data =>
          match candidatesOfData data with
          | Except.error u =>
            (Except.error (SearchErr.uncaught u),
              [NetCall.handshake query, NetCall.searchQ query])
          | Except.ok cs =>
            (Except.ok cs, [NetCall.handshake query, NetCall.searchQ query])

/-- The per-candidate loop of main: download, validate, delete invalid files,
stop at the first valid download.  HTTPError and URLError from the download
are caught and move on to the next candidate; a non-string candidate URL
makes Request raise an uncaught error.  Returns the store, whether a
candidate was downloaded and kept, and the fetch trace. -/
def tryCandidates {B Img : Type} (env : Env B Img) (name : String) (st : Store B) :
    List Json → Except Uncaught (Store B × Bool × List NetCall)
  | [] => Except.ok (st, false, [])
  | c :: rest =>
    match c with
    | Json.str url =>
      match env.fetch url with
      | none =>
        match tryCandidates env name st rest with
        | Except.error u => Except.error u
        | Except.ok (st', d, tr) => Except.ok (st', d, NetCall.fetchUrl url :: tr)
      | some b =>
        let r := validateAndConvert env name b
        if r.1 then
          Except.ok ((st.insert name b).insert name r.2, true, [NetCall.fetchUrl url])
        else
          match tryCandidates env name ((st.insert name b).erase name) rest with
          | Except.error u => Except.error u
          | Except.ok (st', d, tr) => Except.ok (st', d, NetCall.fetchUrl url :: tr)
    | _ => Except.error Uncaught.pyError

/-- The body of main's per-row try block once no skip applies: candidate
resolution with its caught and uncaught exceptions, then the candidate loop
capped at the first 10 candidates. -/
def attemptRow {B Img : Type} (env : Env B Img) (st : Store B) (name title : String) :
    Except Uncaught (Store B × RowOutcome × List NetCall) :=
  match search_image_candidates env title with
  | (Except.error (SearchErr.uncaught u), _) => Except.error u
  | (Except.error (SearchErr.caught c), tr) => Except.ok (st, RowOutcome.searchFailed c, tr)
  | (Except.ok [], tr) => Except.ok (st, RowOutcome.noCandidates, tr)
  | (Except.ok (c :: cs), tr) =>
    match tryCandidates env name st ((c :: cs).take 10) with
    | Except.error u => Except.error u
    | Except.ok (st', true, tr2) => Except.ok (st', RowOutcome.downloaded, tr ++ tr2)
    | Except.ok (st', false, tr2) => Except.ok (st', RowOutcome.allBlocked, tr ++ tr2)

/-- Processing of one CSV row by main: the skip checks, then the try block. -/
def processRow {B Img : Type} (env : Env B Img) (cfg : Config) (st : Store B) (row : Row) :
    Except Uncaught (Store B × RowOutcome × List NetCall) :=
  if rowTitle row = "" ∨ rowName row = "" then Except.ok (st, RowOutcome.skippedBlank, [])
  else if filterHit cfg (rowName row) then Except.ok (st, RowOutcome.skippedFilter, [])
  else if (Store.find st (rowName row)).isSome = true ∧ cfg.overwrite = false then
    Except.ok (st, RowOutcome.skippedExisting, [])
  else attemptRow env st (rowName row) (rowTitle row)

/-- The row loop of main over the parsed CSV rows. -/
def runRows {B Img : Type} (env : Env B Img) (cfg : Config) :
    Store B → List Row → Except Uncaught (Store B × List (RowOutcome × List NetCall))
  | st, [] => Except.ok (st, [])
  | st, row :: rest =>
    match processRow env cfg st row with
    | Except.error u => Except.error u
    | Except.ok (st', o, tr) =>
      match runRows env cfg st' rest with
      | Except.error u => Except.error u
      | Except.ok (stF, outs) => Except.ok (stF, (o, tr) :: outs)

/-- The process exit status: main returns 0 when the row loop completes;  an
uncaught exception terminates the interpreter instead. -/
def mainExit {B Img : Type} (env : Env B Img) (cfg : Config) (st : Store B)
    (rows : List Row) : Except Uncaught Nat :=
  match runRows env cfg st rows with
  | Except.error u => Except.error u
  | Except.ok _ => Except.ok 0

/-- Modelled from the spec: a result entry as the Candidate Resolver section
describes it, with an image URL and a thumbnail URL, each possibly absent. -/
structure SpecEntry where
  image : Option String
  thumbnail : Option String

/-- The JSON object a SpecEntry denotes: the image and thumbnail keys are
present exactly when the corresponding URL is. -/
def SpecEntry.toJson (e : SpecEntry) : Json :=
  Json.obj
    ((match e.image with | some s => [("image", Json.str s)] | none => []) ++
      (match e.thumbnail with | some s => [("thumbnail", Json.str s)] | none => []))

/-- Modelled from the spec: the concatenation, over result entries in their
original order, of the entry's image URL if present followed by its thumbnail
URL if present. -/
def specCandidates (es : List SpecEntry) : List String :=
  es.flatMap (fun e => e.image.toList ++ e.thumbnail.toList)

/-- A candidate is blocked for a destination name when it is a URL whose
download raises a caught network error, or downloads bytes the validator
rejects. -/
def Blocked {B Img : Type} (env : Env B Img) (name : String) (c : Json) : Prop :=
  ∃ u, c = Json.str u ∧
    (env.fetch u = none ∨
      ∃ b, env.fetch u = some b ∧ (validateAndConvert env name b).1 = false)

/-- An environment in which no uncaught exception can arise: the handshake
and search requests succeed, and every parsed response yields a well-shaped
candidate list of strings.  Caught failures (missing token, unparsable JSON,
download errors, invalid images) remain unrestricted. -/
def Benign {B Img : Type} (env : Env B Img) : Prop :=
  (∀ q, (env.handshakeBody q).isSome = true) ∧
  (∀ q v, (env.searchBody q v).isSome = true) ∧
  (∀ s d, env.parseJson s = some d →
    ∃ cs, candidatesOfData d = Except.ok cs ∧ ∀ c ∈ cs, ∃ u, c = Json.str u)

/-- A toy decoded image: a format tag and whether an alpha channel is
present. -/
structure ToyImg where
  fmt : String
  alpha : Bool
deriving DecidableEq

/-- Toy byte contents: either an encoding of a toy image, or junk bytes that
no decoder accepts. -/
abbrev ToyB := Option ToyImg

/-- A handshake page body holding a double-quoted vqd token. -/
def vqdBody : String :=
  "xvqd=" ++ String.singleton dq ++ "tok" ++ String.singleton dq

/-- Search JSON data with a single result entry whose image URL is u. -/
def data1 : Json :=
  Json.obj [("results", Json.arr [Json.obj [("image", Json.str "u")]])]

/-- A concrete environment where the single candidate u downloads junk bytes
that fail validation: search resolution succeeds, the row fails. -/
def envBlocked : Env ToyB ToyImg where
  handshakeBody := fun _ => some vqdBody
  searchBody := fun _ _ => some "payload"
  parseJson := fun _ => some data1
  fetch := fun u => if u = "u" then some none else none
  openImage := fun b => b
  imgFormat := fun i => i.fmt
  convertRGB := fun i => { fmt := i.fmt, alpha := false }
  saveJpeg := fun i => some (some { fmt := "JPEG", alpha := i.alpha })
  save := fun i f => some (some { fmt := f, alpha := i.alpha })

/-- A concrete environment whose handshake request raises a network error. -/
def envBad : Env ToyB ToyImg where
  handshakeBody := fun _ => none
  searchBody := fun _ _ => none
  parseJson := fun _ => none
  fetch := fun _ => none
  openImage := fun b => b
  imgFormat := fun i => i.fmt
  convertRGB := fun i => { fmt := i.fmt, alpha := false }
  saveJpeg := fun i => some (some { fmt := "JPEG", alpha := i.alpha })
  save := fun i f => some (some { fmt := f, alpha := i.alpha })

/-- The default configuration: no overwrite, no single-file filter. -/
def cfg0 : Config := { overwrite := false, fileFilter := none }

/-- A concrete row. -/
def rowW : Row := { title := "t", imageFile := "a.jpg" }

/-- A JSON value that is a string or null (the shapes the image and thumbnail
fields of a real search response entry take). -/
def StrOrNull (j : Json) : Prop :=
  (∃ s, j = Json.str s) ∨ j = Json.null

/-- A result entry that is an object whose image and thumbnail fields are
each a string, null, or absent. -/
def StrFields (item : Json) : Prop :=
  ∃ fields, item = Json.obj fields ∧
    StrOrNull (lookupKey fields "image") ∧ StrOrNull (lookupKey fields "thumbnail")

/-- A handshake body holding a single-quoted token before a double-quoted
one. -/
def bodyBoth : String :=
  "vqd=" ++ String.singleton sq ++ "BBB" ++ String.singleton sq ++ " vqd=" ++
    String.singleton dq ++ "AAA" ++ String.singleton dq

theorem find_insert_self {B : Type} (st : Store B) (k : String) (v : B) :
    Store.find (st.insert k v) k = some v := by
  induction st with
  | nil => simp [Store.insert, Store.find]
  | cons p rest ih =>
    obtain ⟨k', w⟩ := p
    by_cases h : k' = k
    · subst h
      simp [Store.insert, Store.find]
    · simp [Store.insert, Store.find, h, ih]

theorem find_insert_ne {B : Type} (st : Store B) (k k' : String) (v : B) (h : k' ≠ k) :
    Store.find (st.insert k v) k' = Store.find st k' := by
  induction st with
  | nil => simp [Store.insert, Store.find, Ne.symm h]
  | cons p rest ih =>
    obtain ⟨ka, w⟩ := p
    by_cases hk : ka = k
    · subst hk
      simp [Store.insert, Store.find, Ne.symm h]
    · simp only [Store.insert, if_neg hk]
      by_cases hk' : ka = k'
      · simp [Store.find, hk']
      · simp [Store.find, hk', ih]

theorem find_erase_cons {B : Type} (ka : String) (w : B) (rest : Store B) (k : String) :
    Store.erase ((ka, w) :: rest) k =
      if ka = k then Store.erase rest k else (ka, w) :: Store.erase rest k := by
  by_cases hk : ka = k <;> simp [Store.erase, List.filter_cons, hk]

theorem find_erase_self {B : Type} (st : Store B) (k : String) :
    Store.find (st.erase k) k = none := by
  induction st with
  | nil => simp [Store.erase, Store.find]
  | cons p rest ih =>
    obtain ⟨ka, w⟩ := p
    rw [find_erase_cons]
    by_cases hk : ka = k
    · simpa [hk] using ih
    · simpa [hk, Store.find] using ih

theorem find_erase_ne {B : Type} (st : Store B) (k k' : String) (h : k' ≠ k) :
    Store.find (st.erase k) k' = Store.find st k' := by
  induction st with
  | nil => simp [Store.erase, Store.find]
  | cons p rest ih =>
    obtain ⟨ka, w⟩ := p
    rw [find_erase_cons]
    by_cases hk : ka = k
    · subst hk
      simpa [Store.find, Ne.symm h] using ih
    · by_cases hk' : ka = k'
      · simp [Store.find, hk, hk', h]
      · simp [Store.find, hk, hk', ih]

theorem matchVqdAt_nil (q : Char) : matchVqdAt q [] = none := rfl

/-- searchVqd finds the leftmost position at which the pattern matches. -/
theorem searchVqd_leftmost (q : Char) (body : List Char) (t : List Char) :
    searchVqd q body = some t ↔
      ∃ i, matchVqdAt q (body.drop i) = some t ∧
        ∀ j, j < i → matchVqdAt q (body.drop j) = none := by
  induction body with
  | nil =>
    simp only [searchVqd, List.drop_nil, matchVqdAt_nil]
    constructor
    · intro h
      exact absurd h (by simp)
    · rintro ⟨i, hi, _⟩
      exact absurd hi (by simp)
  | cons c rest ih =>
    cases hm : matchVqdAt q (c :: rest) with
    | some tok =>
      simp only [searchVqd, hm]
      constructor
      · intro h
        refine ⟨0, ?_, ?_⟩
        · simpa using hm.trans h
        · intro j hj
          omega
      · rintro ⟨i, hi, hlt⟩
        cases i with
        | zero =>
          simp only [List.drop_zero] at hi
          rw [hm] at hi
          exact hi
        | succ i' =>
          have := hlt 0 (Nat.succ_pos i')
          simp only [List.drop_zero] at this
          rw [hm] at this
          exact absurd this (by simp)
    | none =>
      simp only [searchVqd, hm]
      rw [ih]
      constructor
      · rintro ⟨i, hi, hlt⟩
        refine ⟨i + 1, by simpa using hi, ?_⟩
        intro j hj
        cases j with
        | zero => simpa using hm
        | succ j' =>
          have : j' < i := by omega
          simpa using hlt j' this
      · rintro ⟨i, hi, hlt⟩
        cases i with
        | zero =>
          simp only [List.drop_zero] at hi
          rw [hm] at hi
          exact absurd hi (by simp)
        | succ i' =>
          refine ⟨i', by simpa using hi, ?_⟩
          intro j hj
          have := hlt (j + 1) (by omega)
          simpa using this

/-- C9: token extraction is deterministic with the double-quoted pattern
taking priority: whenever the double-quoted regex has a match, that leftmost
match is returned; the single-quoted pattern is consulted only when the
double-quoted one has no match; searchVqd returns exactly the leftmost match
of a pattern; and on a body holding a single-quoted token before a
double-quoted one, the double-quoted token wins. -/
theorem C9_theorem :
    (∀ body t, searchVqd dq body = some t → extractVqd body = some t) ∧
    (∀ body, searchVqd dq body = none → extractVqd body = searchVqd sq body) ∧
    (∀ q body t, searchVqd q body = some t ↔
      ∃ i, matchVqdAt q (body.drop i) = some t ∧
        ∀ j, j < i → matchVqdAt q (body.drop j) = none) ∧
    extractVqd bodyBoth.toList = some ['A', 'A', 'A'] := by
  refine ⟨?_, ?_, searchVqd_leftmost, ?_⟩
  · intro body t h
    simp [extractVqd, h]
  · intro body h
    simp [extractVqd, h]
  · rfl

/-- Witness for C9 at a concrete body with a double-quoted token. -/
theorem C9_witness : extractVqd vqdBody.toList = some ['t', 'o', 'k'] :=
  C9_theorem.1 vqdBody.toList ['t', 'o', 'k'] rfl

theorem itemCandidates_toJson (e : SpecEntry)
    (hi : ∀ s, e.image = some s → s ≠ "") (ht : ∀ s, e.thumbnail = some s → s ≠ "") :
    itemCandidates e.toJson =
      Except.ok ((e.image.toList ++ e.thumbnail.toList).map Json.str) := by
  obtain ⟨im, th⟩ := e
  cases im with
  | none =>
    cases th with
    | none => rfl
    | some s =>
      have hs : s ≠ "" := ht s rfl
      simp [SpecEntry.toJson, itemCandidates, lookupKey, Json.truthy, hs]
  | some s =>
    have hs : s ≠ "" := hi s rfl
    cases th with
    | none => simp [SpecEntry.toJson, itemCandidates, lookupKey, Json.truthy, hs]
    | some s2 =>
      have hs2 : s2 ≠ "" := ht s2 rfl
      simp [SpecEntry.toJson, itemCandidates, lookupKey, Json.truthy, hs, hs2]

theorem collect_toJson (es : List SpecEntry)
    (h : ∀ e ∈ es, (∀ s, e.image = some s → s ≠ "") ∧ (∀ s, e.thumbnail = some s → s ≠ "")) :
    collectCandidates (es.map SpecEntry.toJson) =
      Except.ok ((specCandidates es).map Json.str) := by
  induction es with
  | nil => rfl
  | cons e rest ih =>
    have he := h e (List.mem_cons_self e rest)
    have hrest := ih (fun e' he' => h e' (List.mem_cons_of_mem _ he'))
    simp only [List.map_cons, collectCandidates, itemCandidates_toJson e he.1 he.2, hrest]
    simp [specCandidates]

/-- C3: on result entries given as objects with their (nonempty) URL fields,
the resolver returns exactly the concatenation, in entry order, of image URL
then thumbnail URL; a null or absent results array yields the empty list; and
the concrete example from the spec yields exactly A, B, C. -/
theorem C3_theorem :
    (∀ es : List SpecEntry,
      (∀ e ∈ es, (∀ s, e.image = some s → s ≠ "") ∧ (∀ s, e.thumbnail = some s → s ≠ "")) →
      candidatesOfData (Json.obj [("results", Json.arr (es.map SpecEntry.toJson))]) =
        Except.ok ((specCandidates es).map Json.str)) ∧
    candidatesOfData (Json.obj [("results", Json.null)]) = Except.ok [] ∧
    candidatesOfData (Json.obj []) = Except.ok [] ∧
    candidatesOfData (Json.obj [("results", Json.arr
      [Json.obj [("image", Json.str "A"), ("thumbnail", Json.str "B")],
        Json.obj [("image", Json.str "C")]])]) =
      Except.ok [Json.str "A", Json.str "B", Json.str "C"] := by
  refine ⟨?_, rfl, rfl, rfl⟩
  intro es h
  simp only [candidatesOfData, resultsOf, lookupKey, if_pos]
  exact collect_toJson es h

/-- Witness for C3 at a concrete entry list. -/
theorem C3_witness :
    candidatesOfData (Json.obj [("results",
      Json.arr ([SpecEntry.mk (some "A") (some "B")].map SpecEntry.toJson))]) =
      Except.ok ((specCandidates [SpecEntry.mk (some "A") (some "B")]).map Json.str) :=
  C3_theorem.1 [SpecEntry.mk (some "A") (some "B")] (by
    intro e he
    rw [List.mem_singleton] at he
    subst he
    refine ⟨fun s hs => ?_, fun s hs => ?_⟩
    · have h1 : "A" = s := Option.some.inj hs
      subst h1
      decide
    · have h1 : "B" = s := Option.some.inj hs
      subst h1
      decide)

theorem condList_mem {α : Type} (b : Bool) (x c : α)
    (h : c ∈ if b then [x] else []) : c = x ∧ b = true := by
  cases b <;> simp_all

theorem condList_len {α : Type} (b : Bool) (x : α) :
    (if b then [x] else ([] : List α)).length ≤ 1 := by
  cases b <;> simp

theorem truthy_strOrNull {j : Json} (h : StrOrNull j) (ht : Json.truthy j = true) :
    ∃ s, j = Json.str s ∧ s ≠ "" := by
  rcases h with ⟨s, rfl⟩ | rfl
  · refine ⟨s, rfl, ?_⟩
    simpa [Json.truthy] using ht
  · simp [Json.truthy] at ht

/-- C10: an entry whose image and thumbnail fields are both falsy (empty or
null or absent) contributes no candidate, and over entries whose fields are
strings or null, every candidate the resolver returns is a nonempty string
and the candidate list has at most twice as many elements as there are
entries. -/
theorem C10_theorem :
    (∀ fields : List (String × Json),
      Json.truthy (lookupKey fields "image") = false →
      Json.truthy (lookupKey fields "thumbnail") = false →
      itemCandidates (Json.obj fields) = Except.ok []) ∧
    (∀ es : List Json, ∀ cs : List Json,
      (∀ item ∈ es, StrFields item) →
      collectCandidates es = Except.ok cs →
      (∀ c ∈ cs, ∃ s, c = Json.str s ∧ s ≠ "") ∧ cs.length ≤ 2 * es.length) := by
  constructor
  · intro fields h1 h2
    simp [itemCandidates, h1, h2]
  · intro es
    induction es with
    | nil =>
      intro cs _ hc
      simp only [collectCandidates] at hc
      obtain rfl : ([] : List Json) = cs := by simpa using hc
      simp
    | cons item rest ih =>
      intro cs hall hc
      obtain ⟨fields, rfl, him, hth⟩ := hall _ (List.mem_cons_self item rest)
      simp only [collectCandidates, itemCandidates] at hc
      cases hr : collectCandidates rest with
      | error u => rw [hr] at hc; simp at hc
      | ok rs =>
        rw [hr] at hc
        simp only [Except.ok.injEq] at hc
        obtain ⟨hmemr, hlenr⟩ := ih rs (fun i hi => hall i (List.mem_cons_of_mem _ hi)) hr
        subst hc
        constructor
        · intro c hcmem
          rcases List.mem_append.mp hcmem with hfront | hback
          · rcases List.mem_append.mp hfront with h1 | h2
            · obtain ⟨rfl, hb⟩ := condList_mem _ _ _ h1
              exact truthy_strOrNull him hb
            · obtain ⟨rfl, hb⟩ := condList_mem _ _ _ h2
              exact truthy_strOrNull hth hb
          · exact hmemr c hback
        · have l1 := condList_len (Json.truthy (lookupKey fields "image"))
            (lookupKey fields "image")
          have l2 := condList_len (Json.truthy (lookupKey fields "thumbnail"))
            (lookupKey fields "thumbnail")
          simp only [List.length_append, List.length_cons]
          omega

/-- Witness for C10 at a concrete entry list. -/
theorem C10_witness :
    (∀ c ∈ [Json.str "u"], ∃ s, c = Json.str s ∧ s ≠ "") ∧
      ([Json.str "u"] : List Json).length ≤ 2 * ([Json.obj [("image", Json.str "u")]] : List Json).length :=
  C10_theorem.2 [Json.obj [("image", Json.str "u")]] [Json.str "u"]
    (by
      intro item hitem
      rw [List.mem_singleton] at hitem
      subst hitem
      exact ⟨[("image", Json.str "u")], rfl, Or.inl ⟨"u", rfl⟩, Or.inr rfl⟩)
    rfl

/-- C4: when the decoded format differs from the one the extension implies,
the validator re-encodes in place: for JPEG targets it first strips alpha by
an RGB conversion and saves at the fixed quality, for other targets it saves
directly; a successful save returns valid with the re-encoded contents, any
decode or save exception returns invalid with no exception escaping. -/
theorem C4_theorem :
    (∀ (B Img : Type) (env : Env B Img) (p : String) (c : B),
      env.openImage c = none → validateAndConvert env p c = (false, c)) ∧
    (∀ (B Img : Type) (env : Env B Img) (p : String) (c : B) (img : Img),
      env.openImage c = some img → env.imgFormat img ≠ expectedFormat p →
      expectedFormat p = "JPEG" →
      (∀ b, env.saveJpeg (env.convertRGB img) = some b →
        validateAndConvert env p c = (true, b)) ∧
      (env.saveJpeg (env.convertRGB img) = none →
        validateAndConvert env p c = (false, c))) ∧
    (∀ (B Img : Type) (env : Env B Img) (p : String) (c : B) (img : Img),
      env.openImage c = some img → env.imgFormat img ≠ expectedFormat p →
      expectedFormat p ≠ "JPEG" →
      (∀ b, env.save img (expectedFormat p) = some b →
        validateAndConvert env p c = (true, b)) ∧
      (env.save img (expectedFormat p) = none →
        validateAndConvert env p c = (false, c))) := by
  refine ⟨?_, ?_, ?_⟩
  · intro B Img env p c hopen
    simp [validateAndConvert, hopen]
  · intro B Img env p c img hopen hfmt hjpeg
    rw [hjpeg] at hfmt
    constructor
    · intro b hsave
      simp [validateAndConvert, hopen, hfmt, hjpeg, hsave]
    · intro hsave
      simp [validateAndConvert, hopen, hfmt, hjpeg, hsave]
  · intro B Img env p c img hopen hfmt hjpeg
    constructor
    · intro b hsave
      simp [validateAndConvert, hopen, hfmt, hjpeg, hsave]
    · intro hsave
      simp [validateAndConvert, hopen, hfmt, hjpeg, hsave]

/-- Witness for C4: a PNG-decoding file named with a jpg extension is
converted in place to an alpha-free JPEG and reported valid. -/
theorem C4_witness :
    validateAndConvert envBlocked "a.jpg" (some (ToyImg.mk "PNG" true)) =
      (true, some (ToyImg.mk "JPEG" false)) :=
  (C4_theorem.2.1 ToyB ToyImg envBlocked "a.jpg" (some (ToyImg.mk "PNG" true))
    (ToyImg.mk "PNG" true) rfl (by decide) (by decide)).1
    (some (ToyImg.mk "JPEG" false)) rfl

/-- C5: when the decoded format equals the format the extension implies, the
validator reports valid and leaves the file contents unchanged; the implied
format is computed case-insensitively with JPG and JPEG identified. -/
theorem C5_theorem :
    (∀ (B Img : Type) (env : Env B Img) (p : String) (c : B) (img : Img),
      env.openImage c = some img → env.imgFormat img = expectedFormat p →
      validateAndConvert env p c = (true, c)) ∧
    expectedFormat "a.jpg" = "JPEG" ∧ expectedFormat "a.JPG" = "JPEG" ∧
    expectedFormat "a.JpEg" = "JPEG" ∧ expectedFormat "a.png" = expectedFormat "b.PNG" := by
  refine ⟨?_, by decide, by decide, by decide, by decide⟩
  intro B Img env p c img hopen hfmt
  simp [validateAndConvert, hopen, hfmt]

/-- Witness for C5: a JPEG-decoding file named with a jpg extension is left
untouched and reported valid. -/
theorem C5_witness :
    validateAndConvert envBlocked "a.jpg" (some (ToyImg.mk "JPEG" false)) =
      (true, some (ToyImg.mk "JPEG" false)) :=
  C5_theorem.1 ToyB ToyImg envBlocked "a.jpg" (some (ToyImg.mk "JPEG" false))
    (ToyImg.mk "JPEG" false) rfl (by decide)

theorem fetchesOf_append (a b : List NetCall) :
    fetchesOf (a ++ b) = fetchesOf a ++ fetchesOf b :=
  List.filterMap_append a b _

theorem fetchesOf_search {B Img : Type} (env : Env B Img) (q : String) :
    fetchesOf (search_image_candidates env q).2 = [] := by
  cases hh : env.handshakeBody q with
  | none => simp [search_image_candidates, fetchesOf, hh]
  | some body =>
    cases he : extractVqd body.data with
    | none => simp [search_image_candidates, fetchesOf, String.toList, hh, he]
    | some vqd =>
      cases hs : env.searchBody q vqd with
      | none => simp [search_image_candidates, fetchesOf, String.toList, hh, he, hs]
      | some payload =>
        cases hp : env.parseJson payload with
        | none => simp [search_image_candidates, fetchesOf, String.toList, hh, he, hs, hp]
        | some data =>
          cases hc : candidatesOfData data with
          | error u => simp [search_image_candidates, fetchesOf, String.toList, hh, he, hs, hp, hc]
          | ok cs => simp [search_image_candidates, fetchesOf, String.toList, hh, he, hs, hp, hc]

/-- Everything a completed candidate loop guarantees: files other than the
destination are untouched; a non-downloading loop leaves an initially absent
destination absent; a downloading loop leaves a file there; and the loop
fetches at most one URL per candidate, each a candidate of the list. -/
theorem tryCandidates_run {B Img : Type} (env : Env B Img) (name : String) :
    ∀ (cs : List Json) (st st' : Store B) (d : Bool) (tr : List NetCall),
      tryCandidates env name st cs = Except.ok (st', d, tr) →
      (∀ k, k ≠ name → Store.find st' k = Store.find st k) ∧
      (d = false → Store.find st name = none → Store.find st' name = none) ∧
      (d = true → ∃ b, Store.find st' name = some b) ∧
      (fetchesOf tr).length ≤ cs.length ∧
      (∀ u ∈ fetchesOf tr, Json.str u ∈ cs) := by
  intro cs
  induction cs with
  | nil =>
    intro st st' d tr h
    simp only [tryCandidates, Except.ok.injEq, Prod.mk.injEq] at h
    obtain ⟨rfl, rfl, rfl⟩ := h
    refine ⟨fun k _ => rfl, fun _ hn => hn, fun hd => absurd hd (by simp), by simp [fetchesOf], by simp [fetchesOf]⟩
  | cons c rest ih =>
    intro st st' d tr h
    cases c with
    | str url =>
      simp only [tryCandidates] at h
      cases hf : env.fetch url with
      | none =>
        simp only [hf] at h
        cases hrec : tryCandidates env name st rest with
        | error u => simp [hrec] at h
        | ok res =>
          obtain ⟨st2, d2, tr2⟩ := res
          simp only [hrec, Except.ok.injEq, Prod.mk.injEq] at h
          obtain ⟨rfl, rfl, rfl⟩ := h
          obtain ⟨ha, hb, hc, hd, he⟩ := ih st st2 d2 tr2 hrec
          refine ⟨ha, hb, hc, ?_, ?_⟩
          · simpa [fetchesOf, List.filterMap_cons] using Nat.succ_le_succ hd
          · intro u hu
            simp only [fetchesOf, List.filterMap_cons] at hu
            rcases List.mem_cons.mp hu with rfl | hu2
            · exact List.mem_cons_self _ _
            · exact List.mem_cons_of_mem _ (he u hu2)
      | some b =>
        simp only [hf] at h
        cases hv : (validateAndConvert env name b).1 with
        | true =>
          simp only [hv, if_true] at h
          simp only [Except.ok.injEq, Prod.mk.injEq] at h
          obtain ⟨rfl, rfl, rfl⟩ := h
          refine ⟨?_, ?_, ?_, ?_, ?_⟩
          · intro k hk
            rw [find_insert_ne _ _ _ _ hk, find_insert_ne _ _ _ _ hk]
          · intro hdd
            exact absurd hdd (by simp)
          · intro _
            exact ⟨_, find_insert_self _ _ _⟩
          · simp [fetchesOf, List.filterMap_cons]
          · intro u hu
            simp only [fetchesOf, List.filterMap_cons, List.filterMap_nil] at hu
            rcases List.mem_cons.mp hu with rfl | hu2
            · exact List.mem_cons_self _ _
            · exact absurd hu2 (by simp)
        | false =>
          simp only [hv, Bool.false_eq_true, if_false] at h
          cases hrec : tryCandidates env name ((st.insert name b).erase name) rest with
          | error u => simp [hrec] at h
          | ok res =>
            obtain ⟨st2, d2, tr2⟩ := res
            simp only [hrec, Except.ok.injEq, Prod.mk.injEq] at h
            obtain ⟨rfl, rfl, rfl⟩ := h
            obtain ⟨ha, hb2, hc, hd, he⟩ := ih _ st2 d2 tr2 hrec
            refine ⟨?_, ?_, hc, ?_, ?_⟩
            · intro k hk
              rw [ha k hk, find_erase_ne _ _ _ hk, find_insert_ne _ _ _ _ hk]
            · intro hdf _
              exact hb2 hdf (find_erase_self _ _)
            · simpa [fetchesOf, List.filterMap_cons] using Nat.succ_le_succ hd
            · intro u hu
              simp only [fetchesOf, List.filterMap_cons] at hu
              rcases List.mem_cons.mp hu with rfl | hu2
              · exact List.mem_cons_self _ _
              · exact List.mem_cons_of_mem _ (he u hu2)
    | null => simp [tryCandidates] at h
    | bool b => simp [tryCandidates] at h
    | num n => simp [tryCandidates] at h
    | arr xs => simp [tryCandidates] at h
    | obj fs => simp [tryCandidates] at h

/-- The candidate loop's outcome and trace do not depend on the starting
store: only its store effect does. -/
theorem tryCandidates_det {B Img : Type} (env : Env B Img) (name : String) :
    ∀ (cs : List Json) (st st' : Store B) (d : Bool) (tr : List NetCall),
      tryCandidates env name st cs = Except.ok (st', d, tr) →
      ∀ g : Store B, ∃ g', tryCandidates env name g cs = Except.ok (g', d, tr) := by
  intro cs
  induction cs with
  | nil =>
    intro st st' d tr h g
    simp only [tryCandidates, Except.ok.injEq, Prod.mk.injEq] at h
    obtain ⟨rfl, rfl, rfl⟩ := h
    exact ⟨g, rfl⟩
  | cons c rest ih =>
    intro st st' d tr h g
    cases c with
    | str url =>
      simp only [tryCandidates] at h
      cases hf : env.fetch url with
      | none =>
        simp only [hf] at h
        cases hrec : tryCandidates env name st rest with
        | error u => simp [hrec] at h
        | ok res =>
          obtain ⟨st2, d2, tr2⟩ := res
          simp only [hrec, Except.ok.injEq, Prod.mk.injEq] at h
          obtain ⟨rfl, rfl, rfl⟩ := h
          obtain ⟨g', hg⟩ := ih st st2 d2 tr2 hrec g
          exact ⟨g', by simp [tryCandidates, hf, hg]⟩
      | some b =>
        simp only [hf] at h
        cases hv : (validateAndConvert env name b).1 with
        | true =>
          simp only [hv, if_true, Except.ok.injEq, Prod.mk.injEq] at h
          obtain ⟨rfl, rfl, rfl⟩ := h
          exact ⟨(g.insert name b).insert name (validateAndConvert env name b).2,
            by simp [tryCandidates, hf, hv]⟩
        | false =>
          simp only [hv, Bool.false_eq_true, if_false] at h
          cases hrec : tryCandidates env name ((st.insert name b).erase name) rest with
          | error u => simp [hrec] at h
          | ok res =>
            obtain ⟨st2, d2, tr2⟩ := res
            simp only [hrec, Except.ok.injEq, Prod.mk.injEq] at h
            obtain ⟨rfl, rfl, rfl⟩ := h
            obtain ⟨g', hg⟩ := ih _ st2 d2 tr2 hrec ((g.insert name b).erase name)
            exact ⟨g', by simp [tryCandidates, hf, hv, hg]⟩
    | null => simp [tryCandidates] at h
    | bool b => simp [tryCandidates] at h
    | num n => simp [tryCandidates] at h
    | arr xs => simp [tryCandidates] at h
    | obj fs => simp [tryCandidates] at h

/-- When every candidate is blocked, the loop completes without downloading
anything. -/
theorem tryCandidates_blocked {B Img : Type} (env : Env B Img) (name : String) :
    ∀ cs : List Json, (∀ c ∈ cs, Blocked env name c) →
      ∀ st : Store B, ∃ st' tr, tryCandidates env name st cs = Except.ok (st', false, tr) := by
  intro cs
  induction cs with
  | nil => exact fun _ st => ⟨st, [], rfl⟩
  | cons c rest ih =>
    intro hall st
    obtain ⟨u, rfl, hcase⟩ := hall c (List.mem_cons_self c rest)
    have hrest := fun x hx => hall x (List.mem_cons_of_mem _ hx)
    rcases hcase with hnone | ⟨b, hfetch, hval⟩
    · obtain ⟨st', tr, hrec⟩ := ih hrest st
      exact ⟨st', NetCall.fetchUrl u :: tr, by simp [tryCandidates, hnone, hrec]⟩
    · obtain ⟨st', tr, hrec⟩ := ih hrest ((st.insert name b).erase name)
      exact ⟨st', NetCall.fetchUrl u :: tr, by simp [tryCandidates, hfetch, hval, hrec]⟩

/-- When every candidate is a string URL, the loop raises nothing. -/
theorem tryCandidates_progress {B Img : Type} (env : Env B Img) (name : String) :
    ∀ cs : List Json, (∀ c ∈ cs, ∃ u, c = Json.str u) →
      ∀ st : Store B, ∃ res, tryCandidates env name st cs = Except.ok res := by
  intro cs
  induction cs with
  | nil => exact fun _ st => ⟨(st, false, []), rfl⟩
  | cons c rest ih =>
    intro hall st
    obtain ⟨u, rfl⟩ := hall c (List.mem_cons_self c rest)
    have hrest := fun x hx => hall x (List.mem_cons_of_mem _ hx)
    cases hf : env.fetch u with
    | none =>
      obtain ⟨⟨st', d, tr⟩, hrec⟩ := ih hrest st
      exact ⟨(st', d, NetCall.fetchUrl u :: tr), by simp [tryCandidates, hf, hrec]⟩
    | some b =>
      cases hv : (validateAndConvert env name b).1 with
      | true =>
        exact ⟨((st.insert name b).insert name (validateAndConvert env name b).2, true,
          [NetCall.fetchUrl u]), by simp [tryCandidates, hf, hv]⟩
      | false =>
        obtain ⟨⟨st', d, tr⟩, hrec⟩ := ih hrest ((st.insert name b).erase name)
        exact ⟨(st', d, NetCall.fetchUrl u :: tr), by simp [tryCandidates, hf, hv, hrec]⟩

/-- Inversion for a completed try block: either it never entered the loop and
left the store alone with no fetch, or search resolution succeeded with a
nonempty candidate list and the loop ran on its first 10 entries. -/
theorem attemptRow_inv {B Img : Type} (env : Env B Img) (st : Store B) (name title : String)
    (st' : Store B) (o : RowOutcome) (tr : List NetCall)
    (h : attemptRow env st name title = Except.ok (st', o, tr)) :
    (st' = st ∧ fetchesOf tr = [] ∧
      ∀ g : Store B, attemptRow env g name title = Except.ok (g, o, tr)) ∨
    ∃ (cs : List Json) (trS trL : List NetCall) (d : Bool),
      search_image_candidates env title = (Except.ok cs, trS) ∧
      tryCandidates env name st (cs.take 10) = Except.ok (st', d, trL) ∧
      tr = trS ++ trL ∧ cs ≠ [] ∧
      ((d = true ∧ o = RowOutcome.downloaded) ∨ (d = false ∧ o = RowOutcome.allBlocked)) := by
  rcases hS : search_image_candidates env title with ⟨res, trS⟩
  have htrS : (search_image_candidates env title).2 = trS := by rw [hS]
  cases res with
  | error se =>
    cases se with
    | uncaught u => simp [attemptRow, hS] at h
    | caught c =>
      simp only [attemptRow, hS, Except.ok.injEq, Prod.mk.injEq] at h
      obtain ⟨rfl, rfl, rfl⟩ := h
      left
      refine ⟨rfl, ?_, fun g => by simp only [attemptRow, hS]⟩
      rw [← htrS]
      exact fetchesOf_search env title
  | ok cs =>
    cases cs with
    | nil =>
      simp only [attemptRow, hS, Except.ok.injEq, Prod.mk.injEq] at h
      obtain ⟨rfl, rfl, rfl⟩ := h
      left
      refine ⟨rfl, ?_, fun g => by simp only [attemptRow, hS]⟩
      rw [← htrS]
      exact fetchesOf_search env title
    | cons c cs' =>
      simp only [attemptRow, hS] at h
      cases hT : tryCandidates env name st (List.take 10 (c :: cs')) with
      | error u =>
        rw [hT] at h
        have h2 : (Except.error u : Except Uncaught (Store B × RowOutcome × List NetCall)) =
            Except.ok (st', o, tr) := h
        exact absurd h2 (by simp)
      | ok r =>
        obtain ⟨st2, d, trL⟩ := r
        rw [hT] at h
        cases d with
        | true =>
          have h2 : (Except.ok (st2, RowOutcome.downloaded, trS ++ trL) :
              Except Uncaught (Store B × RowOutcome × List NetCall)) =
              Except.ok (st', o, tr) := h
          simp only [Except.ok.injEq, Prod.mk.injEq] at h2
          obtain ⟨rfl, rfl, rfl⟩ := h2
          exact Or.inr ⟨c :: cs', trS, trL, true, rfl, hT, rfl, by simp, Or.inl ⟨rfl, rfl⟩⟩
        | false =>
          have h2 : (Except.ok (st2, RowOutcome.allBlocked, trS ++ trL) :
              Except Uncaught (Store B × RowOutcome × List NetCall)) =
              Except.ok (st', o, tr) := h
          simp only [Except.ok.injEq, Prod.mk.injEq] at h2
          obtain ⟨rfl, rfl, rfl⟩ := h2
          exact Or.inr ⟨c :: cs', trS, trL, false, rfl, hT, rfl, by simp, Or.inr ⟨rfl, rfl⟩⟩

theorem processRow_blank {B Img : Type} (env : Env B Img) (cfg : Config) (st : Store B)
    (row : Row) (h : rowTitle row = "" ∨ rowName row = "") :
    processRow env cfg st row = Except.ok (st, RowOutcome.skippedBlank, []) := by
  simp [processRow, h]

theorem processRow_filter {B Img : Type} (env : Env B Img) (cfg : Config) (st : Store B)
    (row : Row) (hb : ¬(rowTitle row = "" ∨ rowName row = ""))
    (hf : filterHit cfg (rowName row)) :
    processRow env cfg st row = Except.ok (st, RowOutcome.skippedFilter, []) := by
  simp [processRow, hb, hf]

theorem processRow_existing {B Img : Type} (env : Env B Img) (cfg : Config) (st : Store B)
    (row : Row) (hb : ¬(rowTitle row = "" ∨ rowName row = ""))
    (hf : ¬ filterHit cfg (rowName row))
    (hex : (Store.find st (rowName row)).isSome = true ∧ cfg.overwrite = false) :
    processRow env cfg st row = Except.ok (st, RowOutcome.skippedExisting, []) := by
  simp [processRow, hb, hf, hex]

theorem processRow_attempt {B Img : Type} (env : Env B Img) (cfg : Config) (st : Store B)
    (row : Row) (hb : ¬(rowTitle row = "" ∨ rowName row = ""))
    (hf : ¬ filterHit cfg (rowName row))
    (hex : ¬((Store.find st (rowName row)).isSome = true ∧ cfg.overwrite = false)) :
    processRow env cfg st row = attemptRow env st (rowName row) (rowTitle row) := by
  simp [processRow, hb, hf, hex]

/-- A row whose destination file exists is finished without any network
call when overwrite is off, whatever skip rule fires first. -/
theorem processRow_noNet {B Img : Type} (env : Env B Img) (cfg : Config) (st : Store B)
    (row : Row) (how : cfg.overwrite = false)
    (hs : (Store.find st (rowName row)).isSome = true) :
    ∃ o, processRow env cfg st row = Except.ok (st, o, []) := by
  by_cases hb : rowTitle row = "" ∨ rowName row = ""
  · exact ⟨_, processRow_blank env cfg st row hb⟩
  · by_cases hf : filterHit cfg (rowName row)
    · exact ⟨_, processRow_filter env cfg st row hb hf⟩
    · exact ⟨_, processRow_existing env cfg st row hb hf ⟨hs, how⟩⟩

/-- With overwrite off, every file present before a row is processed is still
present, unchanged, afterwards. -/
theorem processRow_mono {B Img : Type} (env : Env B Img) (cfg : Config) (st st' : Store B)
    (row : Row) (o : RowOutcome) (tr : List NetCall) (how : cfg.overwrite = false)
    (h : processRow env cfg st row = Except.ok (st', o, tr)) :
    ∀ k b, Store.find st k = some b → Store.find st' k = some b := by
  intro k b hk
  by_cases hb : rowTitle row = "" ∨ rowName row = ""
  · rw [processRow_blank env cfg st row hb] at h
    simp only [Except.ok.injEq, Prod.mk.injEq] at h
    obtain ⟨rfl, -, -⟩ := h
    exact hk
  · by_cases hf : filterHit cfg (rowName row)
    · rw [processRow_filter env cfg st row hb hf] at h
      simp only [Except.ok.injEq, Prod.mk.injEq] at h
      obtain ⟨rfl, -, -⟩ := h
      exact hk
    · cases hsome : (Store.find st (rowName row)).isSome with
      | true =>
        rw [processRow_existing env cfg st row hb hf ⟨hsome, how⟩] at h
        simp only [Except.ok.injEq, Prod.mk.injEq] at h
        obtain ⟨rfl, -, -⟩ := h
        exact hk
      | false =>
        have hn : Store.find st (rowName row) = none := by
          cases hfind : Store.find st (rowName row)
          · rfl
          · rw [hfind] at hsome
            simp at hsome
        rw [processRow_attempt env cfg st row hb hf (by simp [hsome])] at h
        rcases attemptRow_inv env st (rowName row) (rowTitle row) st' o tr h with
          ⟨rfl, -, -⟩ | ⟨cs, trS, trL, d, hS, hT, -, -, -⟩
        · exact hk
        · obtain ⟨ha, -, -, -, -⟩ :=
            tryCandidates_run env (rowName row) (cs.take 10) st st' d trL hT
          by_cases hkn : k = rowName row
          · subst hkn
            rw [hk] at hn
            exact absurd hn (by simp)
          · rw [ha k hkn]
            exact hk

theorem runRows_mono {B Img : Type} (env : Env B Img) (cfg : Config)
    (how : cfg.overwrite = false) :
    ∀ (rows : List Row) (st st1 : Store B) (tr1 : List (RowOutcome × List NetCall)),
      runRows env cfg st rows = Except.ok (st1, tr1) →
      ∀ k b, Store.find st k = some b → Store.find st1 k = some b := by
  intro rows
  induction rows with
  | nil =>
    intro st st1 tr1 h k b hk
    simp only [runRows, Except.ok.injEq, Prod.mk.injEq] at h
    obtain ⟨rfl, -⟩ := h
    exact hk
  | cons row rest ih =>
    intro st st1 tr1 h k b hk
    simp only [runRows] at h
    cases hp : processRow env cfg st row with
    | error u => simp [hp] at h
    | ok r1 =>
      obtain ⟨stMid, o, tr⟩ := r1
      simp only [hp] at h
      cases hr : runRows env cfg stMid rest with
      | error u => simp [hr] at h
      | ok r2 =>
        obtain ⟨stF, outs⟩ := r2
        simp only [hr, Except.ok.injEq, Prod.mk.injEq] at h
        obtain ⟨rfl, -⟩ := h
        exact ih stMid stF outs hr k b (processRow_mono env cfg st stMid row o tr how hp k b hk)

/-- In a benign environment, candidate resolution raises only caught
exceptions, and successful resolution yields string candidates. -/
theorem search_benign {B Img : Type} (env : Env B Img) (hb : Benign env) (q : String) :
    (∃ c tr, search_image_candidates env q = (Except.error (SearchErr.caught c), tr)) ∨
    (∃ cs tr, search_image_candidates env q = (Except.ok cs, tr) ∧
      ∀ c ∈ cs, ∃ u, c = Json.str u) := by
  obtain ⟨h1, h2, h3⟩ := hb
  cases hh : env.handshakeBody q with
  | none => exact absurd (h1 q) (by simp [hh])
  | some body =>
    cases he : extractVqd body.toList with
    | none =>
      left
      exact ⟨Caught.tokenNotFound, [NetCall.handshake q],
        by simp only [search_image_candidates, hh, he]⟩
    | some vqd =>
      cases hs : env.searchBody q vqd with
      | none => exact absurd (h2 q vqd) (by simp [hs])
      | some payload =>
        cases hp : env.parseJson payload with
        | none =>
          left
          exact ⟨Caught.malformedJson, [NetCall.handshake q, NetCall.searchQ q],
            by simp only [search_image_candidates, hh, he, hs, hp]⟩
        | some data =>
          obtain ⟨cs, hcd, hstrs⟩ := h3 payload data hp
          right
          exact ⟨cs, [NetCall.handshake q, NetCall.searchQ q],
            by simp only [search_image_candidates, hh, he, hs, hp, hcd], hstrs⟩

/-- In a benign environment, processing any row completes without an
uncaught exception. -/
theorem processRow_benign {B Img : Type} (env : Env B Img) (hb : Benign env)
    (cfg : Config) (st : Store B) (row : Row) :
    ∃ r, processRow env cfg st row = Except.ok r := by
  by_cases hbl : rowTitle row = "" ∨ rowName row = ""
  · exact ⟨_, processRow_blank env cfg st row hbl⟩
  by_cases hf : filterHit cfg (rowName row)
  · exact ⟨_, processRow_filter env cfg st row hbl hf⟩
  by_cases hex : (Store.find st (rowName row)).isSome = true ∧ cfg.overwrite = false
  · exact ⟨_, processRow_existing env cfg st row hbl hf hex⟩
  rw [processRow_attempt env cfg st row hbl hf hex]
  rcases search_benign env hb (rowTitle row) with ⟨c, tr, hS⟩ | ⟨cs, tr, hS, hstrs⟩
  · exact ⟨(st, RowOutcome.searchFailed c, tr), by simp only [attemptRow, hS]⟩
  · cases cs with
    | nil => exact ⟨(st, RowOutcome.noCandidates, tr), by simp only [attemptRow, hS]⟩
    | cons c cs' =>
      obtain ⟨⟨st2, d, trL⟩, hT⟩ := tryCandidates_progress env (rowName row)
        ((c :: cs').take 10) (fun x hx => hstrs x (List.take_subset _ _ hx)) st
      cases d with
      | true =>
        exact ⟨(st2, RowOutcome.downloaded, tr ++ trL), by simp only [attemptRow, hS, hT]⟩
      | false =>
        exact ⟨(st2, RowOutcome.allBlocked, tr ++ trL), by simp only [attemptRow, hS, hT]⟩

/-- In a benign environment, the whole row loop completes. -/
theorem runRows_benign {B Img : Type} (env : Env B Img) (hb : Benign env) (cfg : Config) :
    ∀ (rows : List Row) (st : Store B), ∃ r, runRows env cfg st rows = Except.ok r := by
  intro rows
  induction rows with
  | nil => exact fun st => ⟨(st, []), rfl⟩
  | cons row rest ih =>
    intro st
    obtain ⟨⟨st2, o, tr⟩, hp⟩ := processRow_benign env hb cfg st row
    obtain ⟨⟨stF, outs⟩, hr⟩ := ih st2
    exact ⟨(stF, (o, tr) :: outs), by simp only [runRows, hp, hr]⟩

/-- C1 counterexample: a NetworkError during the token-handshake fetch is one
of the four error kinds raised while processing a row, yet it is not caught:
the run over a single row terminates the process with an uncaught exception
instead of exiting zero. -/
theorem C1_counterexample :
    envBad.handshakeBody "t" = none ∧
    mainExit envBad cfg0 ([] : Store ToyB) [rowW] = Except.error Uncaught.netHandshake :=
  ⟨rfl, rfl⟩

/-- C1 (amended): TokenNotFoundError and MalformedResponseError raised during
candidate resolution, NetworkError raised during a candidate download, and
InvalidImageError are all caught and terminate at most the current candidate
attempt or row; when no network error strikes the handshake or search fetch
and responses are well-shaped, the process exits zero after attempting all
rows, regardless of individual row outcomes. -/
theorem C1_theorem {B Img : Type} (env : Env B Img) (cfg : Config) (st : Store B)
    (rows : List Row) (hb : Benign env) :
    mainExit env cfg st rows = Except.ok 0 := by
  obtain ⟨⟨stF, outs⟩, hr⟩ := runRows_benign env hb cfg rows st
  unfold mainExit
  rw [hr]

/-- Witness for C1 (amended): a run in which the only candidate downloads
junk that fails validation still exits zero. -/
theorem C1_witness : mainExit envBlocked cfg0 ([] : Store ToyB) [rowW] = Except.ok 0 := by
  refine C1_theorem envBlocked cfg0 [] [rowW] ⟨fun q => rfl, fun q v => rfl, ?_⟩
  intro s d h
  have hd : data1 = d := Option.some.inj h
  subst hd
  refine ⟨[Json.str "u"], rfl, ?_⟩
  intro c hc
  rw [List.mem_singleton] at hc
  exact ⟨"u", hc⟩

/-- C2: for a row whose destination file is initially absent, when search
succeeds with a nonempty candidate list but every attempted candidate either
network-fails or fails validation, the row is logged as failed (all
candidates blocked) and no file exists at the destination afterwards. -/
theorem C2_theorem {B Img : Type} (env : Env B Img) (cfg : Config) (st : Store B) (row : Row)
    (cs : List Json) (trS : List NetCall)
    (h0 : Store.find st (rowName row) = none)
    (h1 : rowTitle row ≠ "") (h2 : rowName row ≠ "")
    (h3 : ¬ filterHit cfg (rowName row))
    (h4 : search_image_candidates env (rowTitle row) = (Except.ok cs, trS))
    (h5 : cs ≠ [])
    (h6 : ∀ c ∈ cs.take 10, Blocked env (rowName row) c) :
    ∃ st' tr, processRow env cfg st row = Except.ok (st', RowOutcome.allBlocked, tr) ∧
      Store.find st' (rowName row) = none := by
  have hbl : ¬(rowTitle row = "" ∨ rowName row = "") := by
    rintro (h | h)
    exacts [h1 h, h2 h]
  have hex : ¬((Store.find st (rowName row)).isSome = true ∧ cfg.overwrite = false) := by
    rw [h0]
    simp
  rw [processRow_attempt env cfg st row hbl h3 hex]
  cases cs with
  | nil => exact absurd rfl h5
  | cons c cs' =>
    obtain ⟨st2, trL, hT⟩ := tryCandidates_blocked env (rowName row) ((c :: cs').take 10) h6 st
    refine ⟨st2, trS ++ trL, ?_, ?_⟩
    · simp only [attemptRow, h4, hT]
    · obtain ⟨-, hnone, -, -, -⟩ :=
        tryCandidates_run env (rowName row) ((c :: cs').take 10) st st2 false trL hT
      exact hnone rfl h0

/-- Witness for C2 at a concrete blocked environment. -/
theorem C2_witness :
    ∃ st' tr, processRow envBlocked cfg0 ([] : Store ToyB) rowW =
      Except.ok (st', RowOutcome.allBlocked, tr) ∧
      Store.find st' (rowName rowW) = none :=
  C2_theorem envBlocked cfg0 [] rowW [Json.str "u"]
    [NetCall.handshake "t", NetCall.searchQ "t"] rfl (by decide) (by decide)
    (fun h => h) rfl (List.cons_ne_nil _ _)
    (by
      intro c hc
      have hcu : c = Json.str "u" := by simpa using hc
      subst hcu
      exact ⟨"u", rfl, Or.inr ⟨none, rfl, rfl⟩⟩)

/-- C7: a row with a blank (stripped) title or imageFile is finished as
skipped with no network call; and with overwrite off, a row whose destination
file already exists is finished with no network call. -/
theorem C7_theorem :
    (∀ (B Img : Type) (env : Env B Img) (cfg : Config) (st : Store B) (row : Row),
      rowTitle row = "" ∨ rowName row = "" →
      processRow env cfg st row = Except.ok (st, RowOutcome.skippedBlank, [])) ∧
    (∀ (B Img : Type) (env : Env B Img) (cfg : Config) (st : Store B) (row : Row),
      cfg.overwrite = false → (Store.find st (rowName row)).isSome = true →
      ∃ o, processRow env cfg st row = Except.ok (st, o, [])) :=
  ⟨fun B Img env cfg st row h => processRow_blank env cfg st row h,
    fun B Img env cfg st row how hs => processRow_noNet env cfg st row how hs⟩

/-- Witness for C7: a blank-title row and an already-present destination. -/
theorem C7_witness :
    processRow envBlocked cfg0 ([] : Store ToyB) (Row.mk "" "x.jpg") =
      Except.ok ([], RowOutcome.skippedBlank, []) ∧
    ∃ o, processRow envBlocked cfg0 [("a.jpg", (none : ToyB))] rowW =
      Except.ok ([("a.jpg", (none : ToyB))], o, []) :=
  ⟨C7_theorem.1 ToyB ToyImg envBlocked cfg0 [] (Row.mk "" "x.jpg") (Or.inl rfl),
    C7_theorem.2 ToyB ToyImg envBlocked cfg0 [("a.jpg", none)] rowW rfl rfl⟩

/-- C8: a completed row fetches at most 10 URLs, all of them among the first
10 candidates the resolver returned. -/
theorem C8_theorem {B Img : Type} (env : Env B Img) (cfg : Config) (st st' : Store B)
    (row : Row) (o : RowOutcome) (tr : List NetCall) (cs : List Json) (trS : List NetCall)
    (hS : search_image_candidates env (rowTitle row) = (Except.ok cs, trS))
    (h : processRow env cfg st row = Except.ok (st', o, tr)) :
    (fetchesOf tr).length ≤ 10 ∧ ∀ u ∈ fetchesOf tr, Json.str u ∈ cs.take 10 := by
  by_cases hbl : rowTitle row = "" ∨ rowName row = ""
  · rw [processRow_blank env cfg st row hbl] at h
    simp only [Except.ok.injEq, Prod.mk.injEq] at h
    obtain ⟨-, -, rfl⟩ := h
    simp [fetchesOf]
  · by_cases hf : filterHit cfg (rowName row)
    · rw [processRow_filter env cfg st row hbl hf] at h
      simp only [Except.ok.injEq, Prod.mk.injEq] at h
      obtain ⟨-, -, rfl⟩ := h
      simp [fetchesOf]
    · by_cases hex : (Store.find st (rowName row)).isSome = true ∧ cfg.overwrite = false
      · rw [processRow_existing env cfg st row hbl hf hex] at h
        simp only [Except.ok.injEq, Prod.mk.injEq] at h
        obtain ⟨-, -, rfl⟩ := h
        simp [fetchesOf]
      · rw [processRow_attempt env cfg st row hbl hf hex] at h
        rcases attemptRow_inv env st (rowName row) (rowTitle row) st' o tr h with
          ⟨-, hfe, -⟩ | ⟨cs2, trS2, trL, d, hS2, hT, rfl, -, -⟩
        · rw [hfe]
          simp
        · rw [hS] at hS2
          simp only [Prod.mk.injEq, Except.ok.injEq] at hS2
          obtain ⟨rfl, rfl⟩ := hS2
          obtain ⟨-, -, -, hlen, hmem⟩ :=
            tryCandidates_run env (rowName row) (cs.take 10) st st' d trL hT
          have h0 : fetchesOf trS = [] := by
            have hfs := fetchesOf_search env (rowTitle row)
            rw [hS] at hfs
            exact hfs
          constructor
          · rw [fetchesOf_append, h0, List.nil_append]
            refine le_trans hlen ?_
            rw [List.length_take]
            exact Nat.min_le_left _ _
          · intro u hu
            rw [fetchesOf_append, h0, List.nil_append] at hu
            exact hmem u hu

/-- Witness for C8 at a concrete run. -/
theorem C8_witness :
    (fetchesOf [NetCall.handshake "t", NetCall.searchQ "t", NetCall.fetchUrl "u"]).length ≤ 10 ∧
    ∀ u ∈ fetchesOf [NetCall.handshake "t", NetCall.searchQ "t", NetCall.fetchUrl "u"],
      Json.str u ∈ ([Json.str "u"] : List Json).take 10 :=
  C8_theorem envBlocked cfg0 [] [] rowW RowOutcome.allBlocked
    [NetCall.handshake "t", NetCall.searchQ "t", NetCall.fetchUrl "u"]
    [Json.str "u"] [NetCall.handshake "t", NetCall.searchQ "t"] rfl rfl

/-- Rerunning the row loop, with overwrite off, from any store that contains
every file of the first run's final store changes nothing: each row either
still skips, or reattempts deterministically without leaving a file, and rows
whose file survives in the final store make no fetch on the rerun. -/
theorem runRows_idem_aux {B Img : Type} (env : Env B Img) (cfg : Config)
    (how : cfg.overwrite = false) (st1 : Store B) :
    ∀ (rows : List Row) (st : Store B) (tr1 : List (RowOutcome × List NetCall)) (g : Store B),
      runRows env cfg st rows = Except.ok (st1, tr1) →
      (∀ k b, Store.find st1 k = some b → Store.find g k = some b) →
      ∃ g2 tr2, runRows env cfg g rows = Except.ok (g2, tr2) ∧
        (∀ k, Store.find g2 k = Store.find g k) ∧
        ∀ pr ∈ rows.zip tr2, (Store.find st1 (rowName pr.1)).isSome = true →
          fetchesOf pr.2.2 = [] := by
  intro rows
  induction rows with
  | nil =>
    intro st tr1 g h hg
    simp only [runRows, Except.ok.injEq, Prod.mk.injEq] at h
    obtain ⟨rfl, rfl⟩ := h
    exact ⟨g, [], rfl, fun k => rfl, by simp⟩
  | cons row rest ih =>
    intro st tr1 g h hg
    simp only [runRows] at h
    cases hp : processRow env cfg st row with
    | error u => simp [hp] at h
    | ok r1 =>
      obtain ⟨stMid, o, tr⟩ := r1
      simp only [hp] at h
      cases hr : runRows env cfg stMid rest with
      | error u => simp [hr] at h
      | ok r2 =>
        obtain ⟨stF, outs⟩ := r2
        simp only [hr, Except.ok.injEq, Prod.mk.injEq] at h
        obtain ⟨rfl, rfl⟩ := h
        by_cases hbl : rowTitle row = "" ∨ rowName row = ""
        · obtain ⟨g2, tr2, hrun2, hsame, hzip⟩ := ih stMid outs g hr hg
          refine ⟨g2, (RowOutcome.skippedBlank, []) :: tr2, ?_, hsame, ?_⟩
          · simp only [runRows, processRow_blank env cfg g row hbl, hrun2]
          · intro pr hpr
            simp only [List.zip_cons_cons, List.mem_cons] at hpr
            rcases hpr with rfl | hpr
            · intro _
              rfl
            · exact hzip pr hpr
        · by_cases hf : filterHit cfg (rowName row)
          · obtain ⟨g2, tr2, hrun2, hsame, hzip⟩ := ih stMid outs g hr hg
            refine ⟨g2, (RowOutcome.skippedFilter, []) :: tr2, ?_, hsame, ?_⟩
            · simp only [runRows, processRow_filter env cfg g row hbl hf, hrun2]
            · intro pr hpr
              simp only [List.zip_cons_cons, List.mem_cons] at hpr
              rcases hpr with rfl | hpr
              · intro _
                rfl
              · exact hzip pr hpr
          · cases hgn : Store.find g (rowName row) with
            | some b =>
              have hpe := processRow_existing env cfg g row hbl hf ⟨by simp [hgn], how⟩
              obtain ⟨g2, tr2, hrun2, hsame, hzip⟩ := ih stMid outs g hr hg
              refine ⟨g2, (RowOutcome.skippedExisting, []) :: tr2, ?_, hsame, ?_⟩
              · simp only [runRows, hpe, hrun2]
              · intro pr hpr
                simp only [List.zip_cons_cons, List.mem_cons] at hpr
                rcases hpr with rfl | hpr
                · intro _
                  rfl
                · exact hzip pr hpr
            | none =>
              have hstn : Store.find st (rowName row) = none := by
                cases hfind : Store.find st (rowName row) with
                | none => rfl
                | some b0 =>
                  have h1 : Store.find stMid (rowName row) = some b0 :=
                    processRow_mono env cfg st stMid row o tr how hp _ _ hfind
                  have h2 : Store.find stF (rowName row) = some b0 :=
                    runRows_mono env cfg how rest stMid stF outs hr _ _ h1
                  have h3 := hg _ _ h2
                  rw [hgn] at h3
                  exact absurd h3 (by simp)
              have hex : ¬((Store.find st (rowName row)).isSome = true ∧
                  cfg.overwrite = false) := by
                rw [hstn]
                simp
              rw [processRow_attempt env cfg st row hbl hf hex] at hp
              rcases attemptRow_inv env st (rowName row) (rowTitle row) stMid o tr hp with
                ⟨rfl, hfe, hallg⟩ | ⟨cs, trS, trL, d, hS, hT, rfl, hne, hdisj⟩
              · have hpe : processRow env cfg g row = Except.ok (g, o, tr) := by
                  rw [processRow_attempt env cfg g row hbl hf (by simp [hgn])]
                  exact hallg g
                obtain ⟨g2, tr2, hrun2, hsame, hzip⟩ := ih stMid outs g hr hg
                refine ⟨g2, (o, tr) :: tr2, ?_, hsame, ?_⟩
                · simp only [runRows, hpe, hrun2]
                · intro pr hpr
                  simp only [List.zip_cons_cons, List.mem_cons] at hpr
                  rcases hpr with rfl | hpr
                  · intro _
                    exact hfe
                  · exact hzip pr hpr
              · rcases hdisj with ⟨rfl, rfl⟩ | ⟨rfl, rfl⟩
                · obtain ⟨-, -, hsome, -, -⟩ :=
                    tryCandidates_run env (rowName row) (cs.take 10) st stMid true trL hT
                  obtain ⟨b2, hb2⟩ := hsome rfl
                  have h1 : Store.find stF (rowName row) = some b2 :=
                    runRows_mono env cfg how rest stMid stF outs hr _ _ hb2
                  have h2 := hg _ _ h1
                  rw [hgn] at h2
                  exact absurd h2 (by simp)
                · obtain ⟨g2', hT2⟩ :=
                    tryCandidates_det env (rowName row) (cs.take 10) st stMid false trL hT g
                  obtain ⟨hnt, hnn, -, -, -⟩ :=
                    tryCandidates_run env (rowName row) (cs.take 10) g g2' false trL hT2
                  have hg2' : ∀ k, Store.find g2' k = Store.find g k := by
                    intro k
                    by_cases hkn : k = rowName row
                    · subst hkn
                      rw [hnn rfl hgn, hgn]
                    · exact hnt k hkn
                  have hpe : processRow env cfg g row =
                      Except.ok (g2', RowOutcome.allBlocked, trS ++ trL) := by
                    rw [processRow_attempt env cfg g row hbl hf (by simp [hgn])]
                    cases cs with
                    | nil => exact absurd rfl hne
                    | cons c cs' => simp only [attemptRow, hS, hT2]
                  obtain ⟨g2, tr2, hrun2, hsame, hzip⟩ :=
                    ih stMid outs g2' hr (fun k b hb => by rw [hg2' k]; exact hg k b hb)
                  refine ⟨g2, (RowOutcome.allBlocked, trS ++ trL) :: tr2, ?_, ?_, ?_⟩
                  · simp only [runRows, hpe, hrun2]
                  · intro k
                    rw [hsame k, hg2' k]
                  · intro pr hpr
                    simp only [List.zip_cons_cons, List.mem_cons] at hpr
                    rcases hpr with rfl | hpr
                    · intro hcond
                      exfalso
                      obtain ⟨b3, hb3⟩ := Option.isSome_iff_exists.mp hcond
                      have h2 := hg _ _ hb3
                      rw [hgn] at h2
                      exact absurd h2 (by simp)
                    · exact hzip pr hpr

/-- C6 counterexample: a single-row input whose only candidate fails
validation.  The first run ends with the output directory still empty, so the
second run is this very computation from the empty store - and it performs
the download of u again.  The second run therefore does perform additional
downloads, refuting the claim as stated. -/
theorem C6_counterexample :
    runRows envBlocked cfg0 ([] : Store ToyB) [rowW] =
      Except.ok ([], [(RowOutcome.allBlocked,
        [NetCall.handshake "t", NetCall.searchQ "t", NetCall.fetchUrl "u"])]) ∧
    fetchesOf [NetCall.handshake "t", NetCall.searchQ "t", NetCall.fetchUrl "u"] = ["u"] :=
  ⟨rfl, rfl⟩

/-- C6 (amended): rerunning the pipeline with overwrite off over the same
input and output directory leaves the set of files unchanged, and performs no
download for any row whose destination file exists after the first run; rows
that left no file are re-attempted, repeating their downloads. -/
theorem C6_theorem {B Img : Type} (env : Env B Img) (cfg : Config) (st0 st1 : Store B)
    (rows : List Row) (tr1 : List (RowOutcome × List NetCall))
    (how : cfg.overwrite = false)
    (h1 : runRows env cfg st0 rows = Except.ok (st1, tr1)) :
    ∃ st2 tr2, runRows env cfg st1 rows = Except.ok (st2, tr2) ∧
      (∀ k, Store.find st2 k = Store.find st1 k) ∧
      ∀ pr ∈ rows.zip tr2, (Store.find st1 (rowName pr.1)).isSome = true →
        fetchesOf pr.2.2 = [] :=
  runRows_idem_aux env cfg how st1 rows st0 tr1 st1 h1 (fun _ _ hb => hb)

/-- Witness for C6 (amended) at a concrete first run. -/
theorem C6_witness :
    ∃ st2 tr2, runRows envBlocked cfg0 ([] : Store ToyB) [rowW] = Except.ok (st2, tr2) ∧
      (∀ k, Store.find st2 k = Store.find ([] : Store ToyB) k) ∧
      ∀ pr ∈ [rowW].zip tr2, (Store.find ([] : Store ToyB) (rowName pr.1)).isSome = true →
        fetchesOf pr.2.2 = [] :=
  C6_theorem envBlocked cfg0 [] [] [rowW]
    [(RowOutcome.allBlocked,
      [NetCall.handshake "t", NetCall.searchQ "t", NetCall.fetchUrl "u"])]
    rfl rfl

end Collect
